import Mathlib

/-!
Verification development for the layer-map indexing core of the `neon`
repository (pageserver layer map, its benchmark harness, and the safekeeper
`gluegun` WAL-repair utility).

Sources embedded from the repository:
- `pageserver/benches/bench_layer_map.rs` (build_layer_map,
  uniform_query_pattern, bench_sequential, bench_from_captest_env);
- `safekeeper/src/bin/gluegun.rs` (main loop, copy_directory).

The `LayerMap` implementation itself (`pageserver/src/tenant/layer_map.rs`)
is not among the provided source files; only its callers are.  Everything in
the `Modelled from the spec` definitions below is therefore translated from
the specification text (sections 3, 4.3, 4.5, 9), not from hidden code.
-/

namespace Neon

/-- Key: fixed-width ordered identifier (`pageserver::repository::Key`),
modelled by its numeric value. -/
structure Key where
  toNat : Nat
deriving DecidableEq, Repr

/-- Key.next from the source: the successor key (`kr.start.next()`). -/
def Key.next (k : Key) : Key := ⟨k.toNat + 1⟩

/-- Key.add from the source: advance a key by `n` (`zero.add(10 * i32)`). -/
def Key.add (k : Key) (n : Nat) : Key := ⟨k.toNat + n⟩

/-- Lsn: 64-bit unsigned log position (`utils::lsn::Lsn`), modelled by its
numeric value; the one place where u64 wrap-around matters
(`uniform_query_pattern`) uses an explicit checked subtraction. -/
structure Lsn where
  toNat : Nat
deriving DecidableEq, Repr

/-- Half-open key interval, Rust `Range<Key>`; the Rust field `end` is
named `stop` here because `end` is a Lean keyword. -/
structure KeyRange where
  start : Key
  stop : Key
deriving DecidableEq, Repr

/-- Half-open Lsn interval, Rust `Range<Lsn>`; the Rust field `end` is
named `stop` here because `end` is a Lean keyword. -/
structure LsnRange where
  start : Lsn
  stop : Lsn
deriving DecidableEq, Repr

/-- LayerDescriptor from `pageserver::tenant::storage_layer`, with exactly
the fields the benchmark constructs: key range, lsn range, delta/image kind
and the diagnostic identifier. -/
structure LayerDescriptor where
  key : KeyRange
  lsn : LsnRange
  is_incremental : Bool
  short_id : String
deriving DecidableEq, Repr

/-- Layer capability `get_key_range()`. -/
def LayerDescriptor.get_key_range (L : LayerDescriptor) : KeyRange := L.key

/-- Layer capability `get_lsn_range()`. -/
def LayerDescriptor.get_lsn_range (L : LayerDescriptor) : LsnRange := L.lsn

/-- Membership of a key in a half-open key range. -/
def KeyRange.containsKey (r : KeyRange) (k : Key) : Bool :=
  decide (r.start.toNat ≤ k.toNat) && decide (k.toNat < r.stop.toNat)

/-- Membership of an lsn in a half-open lsn range. -/
def LsnRange.containsLsn (r : LsnRange) (l : Lsn) : Bool :=
  decide (r.start.toNat ≤ l.toNat) && decide (l.toNat < r.stop.toNat)

/-- Modelled from the spec: candidacy for the point query of section 4.3(a)
of the missing `layer_map.rs` — the layer's KeyRange contains the key and
its LsnRange covers or precedes the lsn, i.e. `LsnRange.start ≤ lsn`. -/
def candidateB (L : LayerDescriptor) (k : Key) (l : Lsn) : Bool :=
  L.key.containsKey k && decide (L.lsn.start.toNat ≤ l.toNat)

/-! ### A total strict order on layer descriptors

The spec pins the selection of `search` down to: greatest `LsnRange.start`
first, then image before delta.  To make the selection a function (and
provably insertion-order independent, spec section 8), remaining ties are
broken by the other descriptor fields, ending with the diagnostic id, so
that the order is total and distinguishes distinct descriptors. -/

/-- One lexicographic step on numeric components. -/
def lexB (x y : Nat) (t : Bool) : Bool :=
  if x < y then true else if x = y then t else false

/-- Kernel-computable strict lexicographic order on lists of characters
(the `String.<` of core Lean does not reduce in the kernel). -/
def charListLt : List Char → List Char → Bool
  | _, [] => false
  | [], _ :: _ => true
  | a :: as, b :: bs =>
      if a < b then true else if a = b then charListLt as bs else false

/-- Strict order on the diagnostic identifiers. -/
def shortIdLt (a b : String) : Bool := charListLt a.toList b.toList

/-- Image layers rank above delta layers at equal `LsnRange.start`
(tie-break of spec section 4.3(a)). -/
def imageRank (L : LayerDescriptor) : Nat := if L.is_incremental then 0 else 1

/-- Modelled from the spec: the total strict priority order used by the
point query of the missing `layer_map.rs` — first `LsnRange.start`
(section 4.3(a): greatest start wins), then image over delta (the
tie-break), then the remaining fields to make the order total. -/
def ldLt (a b : LayerDescriptor) : Bool :=
  lexB a.lsn.start.toNat b.lsn.start.toNat (
    lexB (imageRank a) (imageRank b) (
      lexB a.key.start.toNat b.key.start.toNat (
        lexB a.key.stop.toNat b.key.stop.toNat (
          lexB a.lsn.stop.toNat b.lsn.stop.toNat (
            shortIdLt a.short_id b.short_id)))))

theorem lexB_eq_true {x y : Nat} {t : Bool} :
    lexB x y t = true ↔ x < y ∨ (x = y ∧ t = true) := by
  unfold lexB
  split_ifs <;> simp_all

theorem lexB_eq_false {x y : Nat} {t : Bool} :
    lexB x y t = false ↔ ¬ (x < y ∨ (x = y ∧ t = true)) := by
  rw [← Bool.not_eq_true, lexB_eq_true]

theorem lexB_asymm {x y : Nat} {t t2 : Bool} (h : t = true → t2 = false) :
    lexB x y t = true → lexB y x t2 = false := by
  rw [lexB_eq_true, lexB_eq_false]
  rintro (hlt | ⟨heq, ht⟩) (hlt2 | ⟨heq2, ht2⟩) <;>
    first
      | omega
      | exact absurd ht2 (by rw [h ht]; exact Bool.false_ne_true)

theorem lexB_conn {x y : Nat} {t t2 : Bool} :
    lexB x y t = false → lexB y x t2 = false →
    x = y ∧ t = false ∧ t2 = false := by
  rw [lexB_eq_false, lexB_eq_false]
  intro h1 h2
  push_neg at h1 h2
  have hxy : x = y := by omega
  exact ⟨hxy, Bool.not_eq_true t |>.mp (h1.2 hxy),
    Bool.not_eq_true t2 |>.mp (h2.2 hxy.symm)⟩

theorem lexB_trans {x y z : Nat} {ta tb tc : Bool}
    (h : x = y → y = z → ta = true → tb = true → tc = true) :
    lexB x y ta = true → lexB y z tb = true → lexB x z tc = true := by
  rw [lexB_eq_true, lexB_eq_true, lexB_eq_true]
  rintro (hlt | ⟨heq, ht⟩) (hlt2 | ⟨heq2, ht2⟩)
  · exact Or.inl (by omega)
  · exact Or.inl (by omega)
  · exact Or.inl (by omega)
  · exact Or.inr ⟨by omega, h heq heq2 ht ht2⟩

theorem charListLt_cons {a b : Char} {as bs : List Char} :
    charListLt (a :: as) (b :: bs) = true ↔
    a < b ∨ (a = b ∧ charListLt as bs = true) := by
  simp only [charListLt]
  split_ifs <;> simp_all

theorem charListLt_asymm : ∀ (as bs : List Char),
    charListLt as bs = true → charListLt bs as = false
  | [], [] => by simp [charListLt]
  | [], _ :: _ => by simp [charListLt]
  | _ :: _, [] => by simp [charListLt]
  | a :: as, b :: bs => by
    rw [charListLt_cons, ← Bool.not_eq_true, charListLt_cons]
    rintro (h | ⟨rfl, h⟩)
    · rintro (h2 | ⟨rfl, _⟩)
      · exact absurd h2 (lt_asymm h)
      · exact absurd h (lt_irrefl _)
    · rintro (h2 | ⟨_, h2⟩)
      · exact absurd h2 (lt_irrefl _)
      · simp [charListLt_asymm as bs h] at h2

theorem charListLt_conn : ∀ (as bs : List Char),
    charListLt as bs = false → charListLt bs as = false → as = bs
  | [], [] => by simp
  | [], _ :: _ => by simp [charListLt]
  | _ :: _, [] => by simp [charListLt]
  | a :: as, b :: bs => by
    intro hl hr
    rw [← Bool.not_eq_true, charListLt_cons] at hl hr
    push_neg at hl hr
    have hab : a = b := le_antisymm hr.1 hl.1
    have h1 : charListLt as bs = false :=
      Bool.not_eq_true _ |>.mp (hl.2 hab)
    have h2 : charListLt bs as = false :=
      Bool.not_eq_true _ |>.mp (hr.2 hab.symm)
    rw [hab, charListLt_conn as bs h1 h2]

theorem charListLt_trans : ∀ (as bs cs : List Char),
    charListLt as bs = true → charListLt bs cs = true →
    charListLt as cs = true
  | _, bs, [] => by
    intro _ h2
    cases bs <;> simp [charListLt] at h2
  | as, [], _ :: _ => by
    intro h1 _
    cases as <;> simp [charListLt] at h1
  | [], _ :: _, _ :: _ => by simp [charListLt]
  | a :: as, b :: bs, c :: cs => by
    rw [charListLt_cons, charListLt_cons, charListLt_cons]
    rintro (h | ⟨rfl, h⟩) (h2 | ⟨rfl, h2⟩)
    · exact Or.inl (lt_trans h h2)
    · exact Or.inl h
    · exact Or.inl h2
    · exact Or.inr ⟨rfl, charListLt_trans as bs cs h h2⟩

theorem shortIdLt_asymm {s t : String} :
    shortIdLt s t = true → shortIdLt t s = false :=
  charListLt_asymm s.toList t.toList

theorem shortIdLt_conn {s t : String} :
    shortIdLt s t = false → shortIdLt t s = false → s = t := by
  intro h1 h2
  exact String.toList_inj.mp (charListLt_conn s.toList t.toList h1 h2)

theorem shortIdLt_trans {s t u : String} :
    shortIdLt s t = true → shortIdLt t u = true → shortIdLt s u = true :=
  charListLt_trans s.toList t.toList u.toList

theorem ldLt_asymm {a b : LayerDescriptor} :
    ldLt a b = true → ldLt b a = false :=
  lexB_asymm (lexB_asymm (lexB_asymm (lexB_asymm (lexB_asymm
    shortIdLt_asymm))))

theorem imageRank_inj {a b : LayerDescriptor}
    (h : imageRank a = imageRank b) :
    a.is_incremental = b.is_incremental := by
  unfold imageRank at h
  cases ha : a.is_incremental <;> cases hb : b.is_incremental <;> simp_all

theorem ld_eq_of_fields {a b : LayerDescriptor}
    (h1 : a.lsn.start.toNat = b.lsn.start.toNat)
    (h2 : a.is_incremental = b.is_incremental)
    (h3 : a.key.start.toNat = b.key.start.toNat)
    (h4 : a.key.stop.toNat = b.key.stop.toNat)
    (h5 : a.lsn.stop.toNat = b.lsn.stop.toNat)
    (h6 : a.short_id = b.short_id) : a = b := by
  obtain ⟨⟨⟨ks1⟩, ⟨ke1⟩⟩, ⟨⟨ls1⟩, ⟨le1⟩⟩, i1, s1⟩ := a
  obtain ⟨⟨⟨ks2⟩, ⟨ke2⟩⟩, ⟨⟨ls2⟩, ⟨le2⟩⟩, i2, s2⟩ := b
  simp_all

theorem ldLt_conn {a b : LayerDescriptor}
    (h1 : ldLt a b = false) (h2 : ldLt b a = false) : a = b := by
  unfold ldLt at h1 h2
  obtain ⟨e1, f1, g1⟩ := lexB_conn h1 h2
  obtain ⟨e2, f2, g2⟩ := lexB_conn f1 g1
  obtain ⟨e3, f3, g3⟩ := lexB_conn f2 g2
  obtain ⟨e4, f4, g4⟩ := lexB_conn f3 g3
  obtain ⟨e5, f5, g5⟩ := lexB_conn f4 g4
  exact ld_eq_of_fields e1 (imageRank_inj e2) e3 e4 e5 (shortIdLt_conn f5 g5)

theorem ldLt_trans {a b c : LayerDescriptor} :
    ldLt a b = true → ldLt b c = true → ldLt a c = true :=
  lexB_trans (fun _ _ => lexB_trans (fun _ _ => lexB_trans (fun _ _ =>
    lexB_trans (fun _ _ => lexB_trans (fun _ _ => shortIdLt_trans)))))

theorem ldLt_irrefl (a : LayerDescriptor) : ldLt a a = false := by
  cases h : ldLt a a
  · rfl
  · have h2 := ldLt_asymm h
    simp [h] at h2

theorem ldLt_of_start_lt {a b : LayerDescriptor}
    (h : a.lsn.start.toNat < b.lsn.start.toNat) : ldLt a b = true := by
  unfold ldLt
  rw [lexB_eq_true]
  exact Or.inl h

theorem ldLt_of_start_eq_rank_lt {a b : LayerDescriptor}
    (h : a.lsn.start.toNat = b.lsn.start.toNat)
    (h2 : imageRank a < imageRank b) : ldLt a b = true := by
  unfold ldLt
  rw [lexB_eq_true]
  exact Or.inr ⟨h, lexB_eq_true.mpr (Or.inl h2)⟩

/-- Modelled from the spec: the selection step of the point query of the
missing `layer_map.rs` — keep the better of a new candidate and the best
candidate seen so far, under the priority order `ldLt`. -/
def pickNewer (L : LayerDescriptor) (acc : Option LayerDescriptor) :
    Option LayerDescriptor :=
  match acc with
  | none => some L
  | some M => if ldLt M L then some L else some M

/-- Modelled from the spec: the layer selected by the point query among a
list of candidates (the one greatest under `ldLt`), `none` on no candidate. -/
def selectBest (cands : List LayerDescriptor) : Option LayerDescriptor :=
  cands.foldr pickNewer none

theorem max2_comm (x y : LayerDescriptor) :
    pickNewer x (some y) = pickNewer y (some x) := by
  show (if ldLt y x then some x else some y) =
    (if ldLt x y then some y else some x)
  by_cases h1 : ldLt y x = true
  · rw [if_pos h1, if_neg (by simp [ldLt_asymm h1])]
  · by_cases h2 : ldLt x y = true
    · rw [if_neg h1, if_pos h2]
    · rw [if_neg h1, if_neg h2,
        ldLt_conn (Bool.not_eq_true _ |>.mp h2) (Bool.not_eq_true _ |>.mp h1)]

theorem pickNewer_left_comm (a b : LayerDescriptor) :
    ∀ acc, pickNewer a (pickNewer b acc) = pickNewer b (pickNewer a acc) := by
  intro acc
  cases acc with
  | none => exact max2_comm a b
  | some c =>
    show pickNewer a (if ldLt c b then some b else some c) =
      pickNewer b (if ldLt c a then some a else some c)
    by_cases hcb : ldLt c b = true <;> by_cases hca : ldLt c a = true
    · rw [if_pos hcb, if_pos hca]
      exact max2_comm a b
    · rw [if_pos hcb, if_neg hca]
      show (if ldLt b a then some a else some b) =
        (if ldLt c b then some b else some c)
      rw [if_pos hcb]
      have hba : ldLt b a = false := by
        cases h : ldLt b a
        · rfl
        · exact absurd (ldLt_trans hcb h) hca
      rw [if_neg (by simp [hba])]
    · rw [if_neg hcb, if_pos hca]
      show (if ldLt c a then some a else some c) =
        (if ldLt a b then some b else some a)
      rw [if_pos hca]
      have hab : ldLt a b = false := by
        cases h : ldLt a b
        · rfl
        · exact absurd (ldLt_trans hca h) hcb
      rw [if_neg (by simp [hab])]
    · rw [if_neg hcb, if_neg hca]
      show (if ldLt c a then some a else some c) =
        (if ldLt c b then some b else some c)
      rw [if_neg hca, if_neg hcb]

theorem selectBest_nil : selectBest [] = none := rfl

theorem selectBest_cons (x : LayerDescriptor) (l : List LayerDescriptor) :
    selectBest (x :: l) = pickNewer x (selectBest l) := rfl

theorem selectBest_eq_none_iff (l : List LayerDescriptor) :
    selectBest l = none ↔ l = [] := by
  cases l with
  | nil => simp [selectBest_nil]
  | cons x t =>
    rw [selectBest_cons]
    cases selectBest t <;> simp [pickNewer] <;> split <;> simp

theorem selectBest_mem : ∀ {l : List LayerDescriptor} {M : LayerDescriptor},
    selectBest l = some M → M ∈ l := by
  intro l
  induction l with
  | nil => intro M h; simp [selectBest_nil] at h
  | cons x t ih =>
    intro M h
    rw [selectBest_cons] at h
    cases ht : selectBest t with
    | none =>
      rw [ht] at h
      simp only [pickNewer] at h
      injection h with h2
      subst h2
      exact List.mem_cons_self x t
    | some N =>
      rw [ht] at h
      simp only [pickNewer] at h
      split at h
      · injection h with h2
        subst h2
        exact List.mem_cons_self x t
      · injection h with h2
        subst h2
        exact List.mem_cons_of_mem x (ih ht)

theorem selectBest_maximal : ∀ {l : List LayerDescriptor}
    {M : LayerDescriptor}, selectBest l = some M →
    ∀ a ∈ l, ldLt M a = false := by
  intro l
  induction l with
  | nil => intro M h; simp [selectBest_nil] at h
  | cons x t ih =>
    intro M h a ha
    rw [selectBest_cons] at h
    cases ht : selectBest t with
    | none =>
      rw [ht] at h
      simp only [pickNewer] at h
      injection h with h2
      subst h2
      rcases List.mem_cons.mp ha with rfl | ha2
      · exact ldLt_irrefl a
      · rw [(selectBest_eq_none_iff t).mp ht] at ha2
        exact absurd ha2 (List.not_mem_nil a)
    | some N =>
      rw [ht] at h
      simp only [pickNewer] at h
      split at h
      · rename_i hNx
        injection h with h2
        subst h2
        rcases List.mem_cons.mp ha with rfl | ha2
        · exact ldLt_irrefl a
        · have hNa := ih ht a ha2
          cases hMa : ldLt x a
          · rfl
          · exact absurd (ldLt_trans hNx hMa) (by simp [hNa])
      · rename_i hNx
        injection h with h2
        subst h2
        rcases List.mem_cons.mp ha with rfl | ha2
        · exact Bool.not_eq_true _ |>.mp hNx
        · exact ih ht a ha2

theorem selectBest_perm {l₁ l₂ : List LayerDescriptor} (p : l₁.Perm l₂) :
    selectBest l₁ = selectBest l₂ := by
  induction p with
  | nil => rfl
  | cons x _ ih => rw [selectBest_cons, selectBest_cons, ih]
  | swap x y l =>
    rw [selectBest_cons, selectBest_cons, selectBest_cons, selectBest_cons]
    exact pickNewer_left_comm y x (selectBest l)
  | trans _ _ ih1 ih2 => exact ih1.trans ih2

/-- Modelled from the spec: the resume Lsn of section 4.5 — on a hit the
caller gets, for a delta layer, the Lsn at which to resume the backward
walk (the delta's `LsnRange.start`); an image layer is terminal. -/
def resumeOf (L : LayerDescriptor) : Option Lsn :=
  if L.is_incremental then some L.lsn.start else none

/-- Modelled from the spec: point query (a) of section 4.3 over a list of
indexed layers — among layers whose KeyRange contains `k` and whose
LsnRange covers or precedes `l`, select the one with greatest
`LsnRange.start`, image before delta on ties; `none` when no layer
qualifies. -/
def searchLayers (layers : List LayerDescriptor) (k : Key) (l : Lsn) :
    Option (LayerDescriptor × Option Lsn) :=
  match selectBest (layers.filter (fun L => candidateB L k l)) with
  | none => none
  | some L => some (L, resumeOf L)

/-- Modelled from the spec: the LayerMap façade state of sections 4.3-4.5 —
the open/frozen overlay, the compiled snapshot of the historic coverage
index, and the pending batch of not-yet-merged inserts.  (The claims under
verification exercise no `remove_historic`, so no tombstones are kept.) -/
structure LayerMap where
  open_and_frozen : List LayerDescriptor
  compiled : List LayerDescriptor
  pending : List LayerDescriptor
deriving DecidableEq, Repr

/-- `LayerMap::default()` as used by the benchmark: the empty map. -/
def LayerMap.default : LayerMap := ⟨[], [], []⟩

/-- Modelled from the spec: `insert_historic` of section 4.5 — amortized
O(1), appends to the pending batch. -/
def LayerMap.insert_historic (m : LayerMap) (L : LayerDescriptor) :
    LayerMap :=
  { m with pending := m.pending ++ [L] }

/-- Modelled from the spec: `rebuild_index()` of section 4.5 — drains the
pending batch into the compiled snapshot; idempotent when the batch is
empty. -/
def LayerMap.rebuild_index (m : LayerMap) : LayerMap :=
  { m with compiled := m.compiled ++ m.pending, pending := [] }

/-- Modelled from the spec: `search` of section 4.5 — checks the overlay
first (section 4.4: linearly, most-recent-first), then the historic index;
on a hit returns the layer and, if it is a delta layer, the resume Lsn.
Per the section 4.5 contract, `insert_historic` has no effect on this
query until `rebuild_index()`, so only the compiled snapshot is read. -/
def LayerMap.search (m : LayerMap) (k : Key) (l : Lsn) :
    Option (LayerDescriptor × Option Lsn) :=
  match m.open_and_frozen.find? (fun L => candidateB L k l) with
  | some L => some (L, resumeOf L)
  | none => searchLayers m.compiled k l

/-- Modelled from the spec: the alternative pre-rebuild query behaviour of
section 4.3, which additionally scans the pending batch linearly.  The
section 4.5 contract (`insert_historic` has no effect until rebuild) and
this behaviour cannot both hold; this definition exists to exhibit the
divergence. -/
def LayerMap.searchWithPending (m : LayerMap) (k : Key) (l : Lsn) :
    Option (LayerDescriptor × Option Lsn) :=
  match m.open_and_frozen.find? (fun L => candidateB L k l) with
  | some L => some (L, resumeOf L)
  | none => searchLayers (m.compiled ++ m.pending) k l

/-- Modelled from the spec: `iter_historic_layers()` of sections 4.3/4.5 —
enumerates historic layers, deduplicating between compiled snapshot and
pending batch. -/
def LayerMap.iter_historic_layers (m : LayerMap) : List LayerDescriptor :=
  (m.compiled ++ m.pending).dedup

/-- Folding `insert_historic` over a list of layers, as `build_layer_map`
and `bench_sequential` do. -/
def LayerMap.insertList (m : LayerMap) (ls : List LayerDescriptor) :
    LayerMap :=
  ls.foldl LayerMap.insert_historic m

theorem insertList_fields (ls : List LayerDescriptor) : ∀ (m : LayerMap),
    (m.insertList ls).pending = m.pending ++ ls ∧
    (m.insertList ls).compiled = m.compiled ∧
    (m.insertList ls).open_and_frozen = m.open_and_frozen := by
  induction ls with
  | nil => intro m; simp [LayerMap.insertList]
  | cons x t ih =>
    intro m
    have := ih (m.insert_historic x)
    simpa [LayerMap.insertList, LayerMap.insert_historic,
      List.foldl_cons] using this

theorem searchLayers_eq_none_iff (layers : List LayerDescriptor)
    (k : Key) (l : Lsn) :
    searchLayers layers k l = none ↔
    ∀ L ∈ layers, candidateB L k l = false := by
  unfold searchLayers
  cases h : selectBest (layers.filter (fun L => candidateB L k l)) with
  | none =>
    simp only [true_iff]
    have hnil := (selectBest_eq_none_iff _).mp h
    intro L hL
    by_contra hc
    have : L ∈ layers.filter (fun L => candidateB L k l) :=
      List.mem_filter.mpr ⟨hL, by revert hc; cases candidateB L k l <;> simp⟩
    rw [hnil] at this
    exact absurd this (List.not_mem_nil L)
  | some R =>
    simp only [reduceCtorEq, false_iff]
    intro hall
    have hR := selectBest_mem h
    have := (List.mem_filter.mp hR).2
    rw [hall R (List.mem_filter.mp hR).1] at this
    exact Bool.false_ne_true this

theorem searchLayers_some {layers : List LayerDescriptor} {k : Key}
    {l : Lsn} {R : LayerDescriptor} {res : Option Lsn}
    (h : searchLayers layers k l = some (R, res)) :
    R ∈ layers ∧ candidateB R k l = true ∧ res = resumeOf R ∧
    ∀ L ∈ layers, candidateB L k l = true → ldLt R L = false := by
  unfold searchLayers at h
  cases hb : selectBest (layers.filter (fun L => candidateB L k l)) with
  | none => rw [hb] at h; exact absurd h (by simp)
  | some M =>
    rw [hb] at h
    injection h with h2
    rw [Prod.mk.injEq] at h2
    obtain ⟨rfl, rfl⟩ := h2
    have hmem := selectBest_mem hb
    refine ⟨(List.mem_filter.mp hmem).1, (List.mem_filter.mp hmem).2, rfl,
      fun L hL hc => ?_⟩
    exact selectBest_maximal hb L (List.mem_filter.mpr ⟨hL, hc⟩)

theorem searchLayers_greatest_start {layers : List LayerDescriptor}
    {k : Key} {l : Lsn} {R : LayerDescriptor} {res : Option Lsn}
    (h : searchLayers layers k l = some (R, res)) :
    ∀ L ∈ layers, candidateB L k l = true →
    L.lsn.start.toNat ≤ R.lsn.start.toNat := by
  intro L hL hc
  by_contra hlt
  have := (searchLayers_some h).2.2.2 L hL hc
  rw [ldLt_of_start_lt (by omega)] at this
  exact absurd this (by simp)

/-! ### Difficulty map (spec sections 4.3(b), 4.5, 9)

The reference implementation of the cost model is flagged by the spec as an
unfinished placeholder; section 9 prescribes a documented cost model —
the count of delta layers a reconstruction must traverse within the
partition — which is what is modelled here. -/

/-- KeyPartitioning (`pageserver::keyspace::KeyPartitioning`): an
externally supplied ordered sequence of key ranges. -/
abbrev KeyPartitioning := List KeyRange

/-- Starts of the image layers covering key `k` at or before `l`. -/
def imageCandStarts (layers : List LayerDescriptor) (k : Key) (l : Lsn) :
    List Nat :=
  (layers.filter (fun L => !L.is_incremental && candidateB L k l)).map
    (fun L => L.lsn.start.toNat)

/-- Modelled from the spec: the position of the latest image layer for `k`
at time `l` (the point where a backward reconstruction walk terminates),
`none` when no image layer qualifies. -/
def latestImageStart (layers : List LayerDescriptor) (k : Key) (l : Lsn) :
    Option Nat :=
  (imageCandStarts layers k l).max?

/-- Modelled from the spec (section 9 cost model): the number of delta
layers a reconstruction of `k` as of `l` must traverse — deltas covering
`k` starting at or before `l` and strictly newer than the latest image
(an image at equal start terminates the walk per the section 4.3
tie-break). -/
def keyDifficulty (layers : List LayerDescriptor) (k : Key) (l : Lsn) :
    Nat :=
  match latestImageStart layers k l with
  | none => layers.countP (fun L => L.is_incremental && candidateB L k l)
  | some s => layers.countP (fun L => L.is_incremental && candidateB L k l
      && decide (s < L.lsn.start.toNat))

/-- Sample keys of a partition: its start plus every layer key boundary
strictly inside it; the per-key difficulty is constant between these. -/
def partitionSampleKeys (layers : List LayerDescriptor) (P : KeyRange) :
    List Key :=
  P.start :: layers.filterMap (fun L =>
    if P.start.toNat < L.key.start.toNat &&
        L.key.start.toNat < P.stop.toNat
    then some L.key.start else none)

/-- Modelled from the spec: per-partition difficulty — the worst
`keyDifficulty` over the partition's sample keys. -/
def partitionDifficulty (layers : List LayerDescriptor) (P : KeyRange)
    (l : Lsn) : Nat :=
  ((partitionSampleKeys layers P).map
    (fun k => keyDifficulty layers k l)).foldr max 0

/-- Modelled from the spec: `get_difficulty_map(lsn, partitioning)` of
sections 4.3(b)/4.5 — one difficulty score per partition, index-aligned
with the partitioning. -/
def LayerMap.get_difficulty_map (m : LayerMap) (l : Lsn)
    (partitioning : KeyPartitioning) : List Nat :=
  partitioning.map (fun P => partitionDifficulty m.compiled P l)

/-! ### The benchmark harness, `pageserver/benches/bench_layer_map.rs` -/

/-- Parsed image filename (`ImageFileName`): key range and Lsn. -/
structure ImageFileName where
  key_range : KeyRange
  lsn : Lsn
deriving DecidableEq, Repr

/-- Parsed delta filename (`DeltaFileName`): key range and lsn range. -/
structure DeltaFileName where
  key_range : KeyRange
  lsn_range : LsnRange
deriving DecidableEq, Repr

/-- One line of the filename dump after parsing: which of
`ImageFileName::parse_str` / `DeltaFileName::parse_str` succeeded, plus
the original line used as `short_id` (an unparsable line panics before
producing a layer; the parsers live outside the provided sources, so the
input is taken post-parse). -/
inductive ParsedFileName where
  | image (f : ImageFileName) (fname : String)
  | delta (f : DeltaFileName) (fname : String)
deriving DecidableEq, Repr

/-- The LayerDescriptor `build_layer_map` constructs for one parsed line:
an image gets `is_incremental = false` and the singleton lsn range
`imgfilename.lsn .. imgfilename.lsn + 1`; a delta gets
`is_incremental = true` and the parsed lsn range. -/
def layerOfParsed : ParsedFileName → LayerDescriptor
  | .image f fname =>
      { key := f.key_range
        lsn := ⟨f.lsn, ⟨f.lsn.toNat + 1⟩⟩
        is_incremental := false
        short_id := fname }
  | .delta f fname =>
      { key := f.key_range
        lsn := f.lsn_range
        is_incremental := true
        short_id := fname }

/-- `build_layer_map` from the benchmark: one `insert_historic` per parsed
line, then one `rebuild_index` (the min/max lsn bookkeeping it prints is
irrelevant to the claims). -/
def build_layer_map (input : List ParsedFileName) : LayerMap :=
  (LayerMap.default.insertList (input.map layerOfParsed)).rebuild_index

/-- Checked u64 subtraction: the benchmark's `Lsn(lr.start.0 - 1)` is an
unguarded u64 subtraction that underflows when `lr.start = 0`; `none`
models that underflow (a panic in a debug build). -/
def u64CheckedSub (a b : Nat) : Option Nat :=
  if b ≤ a then some (a - b) else none

/-- One step of `uniform_query_pattern`'s `filter_map`: skip incremental
layers; for a non-incremental layer emit the query
`(kr.start.next(), Lsn(lr.start.0 - 1))`, where the subtraction underflow
(a panic) collapses the whole result to `none`. -/
def uqpStep (L : LayerDescriptor) (acc : Option (List (Key × Lsn))) :
    Option (List (Key × Lsn)) :=
  match acc with
  | none => none
  | some rest =>
      if L.is_incremental then some rest
      else
        match u64CheckedSub L.get_lsn_range.start.toNat 1 with
        | none => none
        | some n => some ((L.get_key_range.start.next, ⟨n⟩) :: rest)

/-- `uniform_query_pattern` from the benchmark: for each non-incremental
layer one query, at the key following the layer's key-range start and the
Lsn right before the layer's lsn-range start; `none` when the unguarded
subtraction underflows. -/
def uniform_query_pattern (m : LayerMap) : Option (List (Key × Lsn)) :=
  m.iter_historic_layers.foldr uqpStep (some [])

/-- `Key::from_hex("000000000000000000000000000000000000")` of
`bench_sequential`: the zero key. -/
def zeroKey : Key := ⟨0⟩

/-- One synthetic layer of `bench_sequential`: layer `i` covers the key
range `[10*(i%100), 10*(i%100)+1)` and the lsn range `[i, i+1)`, as a
non-incremental (image) layer. -/
def benchSequentialLayer (i : Nat) : LayerDescriptor :=
  { key := ⟨zeroKey.add (10 * (i % 100)), zeroKey.add (10 * (i % 100) + 1)⟩
    lsn := ⟨⟨i⟩, ⟨i + 1⟩⟩
    is_incremental := false
    short_id := "Layer " ++ toString i }

/-- The 100000 synthetic layers `bench_sequential` inserts. -/
def benchSequentialLayers : List LayerDescriptor :=
  (List.range 100000).map benchSequentialLayer

/-- The layer map `bench_sequential` builds: insert all 100000 layers,
then rebuild once. -/
def benchSequentialMap : LayerMap :=
  (LayerMap.default.insertList benchSequentialLayers).rebuild_index

/-! ### The gluegun WAL-repair utility, `safekeeper/src/bin/gluegun.rs` -/

/-- Safekeeper control file state (`SafeKeeperState`), restricted to the
fields gluegun reads. -/
structure SafeKeeperState where
  local_start_lsn : Lsn
  timeline_start_lsn : Lsn
  commit_lsn : Lsn
deriving DecidableEq, Repr

/-- `TimelineDirInfo` from gluegun: id, directory, control file. -/
structure TimelineDirInfo where
  ttid : String
  timeline_dir : String
  control_file : SafeKeeperState
deriving DecidableEq, Repr

/-- Observable file-system effect of the gluegun utility: a log line, or a
mutation of the target data directory (file creation, copy, byte write). -/
inductive FsAction where
  | logInfo (msg : String)
  | fsWrite (path : String)
deriving DecidableEq, Repr

/-- Whether an action mutates the file system. -/
def FsAction.isWrite : FsAction → Bool
  | .logInfo _ => false
  | .fsWrite _ => true

/-- `copy_directory` from gluegun: logs the intended action and returns
`Ok(())` without copying anything (its body is a TODO).  The Bool is the
`Result` (true = Ok). -/
def copy_directory (tli : TimelineDirInfo) (new_tli_dir : String) :
    List FsAction × Bool :=
  ([.logInfo ("ACTION: Copying timeline " ++ tli.ttid ++ " to "
      ++ new_tli_dir)], true)

/-- File-system facts one iteration of gluegun's timeline loop consults:
the source timeline, the dryrun flag, the target directory and its
existence, the target's control file as read by `read_timeline` (`none`
when that read fails), and the two candidate WAL segment paths on each
side as returned by `wal_file_paths`, with their existence. -/
structure GluegunTimelineEnv where
  tli : TimelineDirInfo
  dryrun : Bool
  new_tli_dir : String
  new_tli_dir_exists : Bool
  read_new_tli : Option TimelineDirInfo
  valid_seg0 : String
  valid_seg1 : String
  new_seg0 : String
  new_seg1 : String
  valid_seg0_exists : Bool
  valid_seg1_exists : Bool
  new_seg0_exists : Bool
  new_seg1_exists : Bool
deriving DecidableEq, Repr

/-- The body of the per-timeline loop of gluegun's `main` (lines 103-162),
as the list of actions it performs; a failed `assert!`, a propagated
error or a panic ends the iteration with the actions performed so far. -/
def processTimeline (env : GluegunTimelineEnv) : List FsAction :=
  if env.tli.control_file.local_start_lsn ≠
      env.tli.control_file.timeline_start_lsn then
    []
  else
    let found := FsAction.logInfo ("Found timeline " ++ env.tli.ttid)
    if env.new_tli_dir_exists = false then
      found :: FsAction.logInfo ("Timeline " ++ env.tli.ttid
          ++ " does not exist in the target directory " ++ env.new_tli_dir)
        :: (if env.dryrun then []
            else (copy_directory env.tli env.new_tli_dir).1)
    else
      match env.read_new_tli with
      | none => [found]
      | some new_tli =>
        if new_tli.control_file.local_start_lsn =
            env.tli.control_file.timeline_start_lsn then
          [found, FsAction.logInfo ("Timeline " ++ env.tli.ttid
            ++ " is already fixed in the target directory "
            ++ env.new_tli_dir)]
        else
          let canfix := FsAction.logInfo ("Timeline " ++ new_tli.ttid
            ++ " can be fixed with bytes up to commit_lsn")
          if new_tli.control_file.timeline_start_lsn ≠
              env.tli.control_file.timeline_start_lsn then
            [found, canfix]
          else
            match (if env.new_seg0_exists then some env.new_seg0
                   else if env.new_seg1_exists then some env.new_seg1
                   else none) with
            | none => [found, canfix, FsAction.logInfo ("Segment "
                ++ env.new_seg0
                ++ " was already deleted, nothing to backfill")]
            | some new_segname =>
              match (if env.valid_seg0_exists then some env.valid_seg0
                     else if env.valid_seg1_exists then some env.valid_seg1
                     else none) with
              | none => [found, canfix]
              | some valid_segname =>
                if env.dryrun then [found, canfix]
                else [found, canfix, FsAction.logInfo
                  ("ACTION: Copying bytes from " ++ valid_segname
                    ++ " to " ++ new_segname)]

/-! ### Shared helper lemmas -/

theorem buildFromList_fields (ls : List LayerDescriptor) :
    ((LayerMap.default.insertList ls).rebuild_index).compiled = ls ∧
    ((LayerMap.default.insertList ls).rebuild_index).open_and_frozen = []
      ∧ ((LayerMap.default.insertList ls).rebuild_index).pending = [] := by
  obtain ⟨h1, h2, h3⟩ := insertList_fields ls LayerMap.default
  refine ⟨?_, ?_, ?_⟩
  · show (LayerMap.default.insertList ls).compiled ++
      (LayerMap.default.insertList ls).pending = ls
    rw [h1, h2]
    simp [LayerMap.default]
  · show (LayerMap.default.insertList ls).open_and_frozen = []
    rw [h3]
    rfl
  · rfl

theorem search_of_no_overlay {m : LayerMap}
    (hov : m.open_and_frozen = []) (k : Key) (l : Lsn) :
    m.search k l = searchLayers m.compiled k l := by
  unfold LayerMap.search
  rw [hov]
  rfl

theorem candidateB_of_contains {L : LayerDescriptor} {k : Key} {l : Lsn}
    (hk : L.key.containsKey k = true) (hl : L.lsn.containsLsn l = true) :
    candidateB L k l = true := by
  unfold LsnRange.containsLsn at hl
  unfold candidateB
  simp only [Bool.and_eq_true, decide_eq_true_eq] at hl ⊢
  exact ⟨hk, hl.1⟩

theorem search_hit_resume {m : LayerMap} {k : Key} {l : Lsn}
    {R : LayerDescriptor} {res : Option Lsn}
    (h : m.search k l = some (R, res)) : res = resumeOf R := by
  unfold LayerMap.search at h
  cases hf : m.open_and_frozen.find? (fun L => candidateB L k l) with
  | some L =>
    rw [hf] at h
    injection h with h2
    rw [Prod.mk.injEq] at h2
    obtain ⟨rfl, rfl⟩ := h2
    rfl
  | none =>
    rw [hf] at h
    exact (searchLayers_some h).2.2.1

/-- Point query against a set of singleton-lsn image layers: a query point
covered by exactly one layer is answered with that layer. -/
theorem searchLayers_unique_singleton_image
    {layers : List LayerDescriptor}
    (hall : ∀ L ∈ layers, L.is_incremental = false ∧
      L.lsn.stop.toNat = L.lsn.start.toNat + 1)
    {k : Key} {l : Lsn} {L0 : LayerDescriptor} (h0 : L0 ∈ layers)
    (hk : L0.key.containsKey k = true)
    (hl : L0.lsn.containsLsn l = true)
    (huniq : ∀ L ∈ layers, L.key.containsKey k = true →
      L.lsn.containsLsn l = true → L = L0) :
    ∃ res, searchLayers layers k l = some (L0, res) := by
  have hc0 : candidateB L0 k l = true := candidateB_of_contains hk hl
  cases hs : searchLayers layers k l with
  | none =>
    have := (searchLayers_eq_none_iff layers k l).mp hs L0 h0
    rw [hc0] at this
    exact absurd this (by simp)
  | some p =>
    obtain ⟨R, res⟩ := p
    obtain ⟨hRmem, hRc, -, -⟩ := searchLayers_some hs
    have hstart := searchLayers_greatest_start hs L0 h0 hc0
    -- L0 has a singleton lsn range, so the query lsn is its start
    have hsing0 := (hall L0 h0).2
    unfold LsnRange.containsLsn at hl
    simp only [Bool.and_eq_true, decide_eq_true_eq] at hl
    have hl0 : L0.lsn.start.toNat = l.toNat := by omega
    -- the winner R starts at or before l, and at or after L0
    unfold candidateB at hRc
    simp only [Bool.and_eq_true, decide_eq_true_eq] at hRc
    have hRstart : R.lsn.start.toNat = l.toNat := by omega
    -- R also has a singleton range, so it contains l
    have hsingR := (hall R hRmem).2
    have hRl : R.lsn.containsLsn l = true := by
      unfold LsnRange.containsLsn
      simp only [Bool.and_eq_true, decide_eq_true_eq]
      omega
    have := huniq R hRmem hRc.1 hRl
    subst this
    exact ⟨res, rfl⟩

/-! ### Concrete layers used by witnesses and counterexamples -/

/-- Scenario A image layer I: KeyRange `[K0, K100)` at Lsn 100 (singleton
lsn range `[100, 101)`). -/
def scnA_I : LayerDescriptor := ⟨⟨⟨0⟩, ⟨100⟩⟩, ⟨⟨100⟩, ⟨101⟩⟩, false, "I"⟩

/-- Scenario A delta layer D: KeyRange `[K50, K150)`, LsnRange
`[100, 200)`. -/
def scnA_D : LayerDescriptor := ⟨⟨⟨50⟩, ⟨150⟩⟩, ⟨⟨100⟩, ⟨200⟩⟩, true, "D"⟩

/-- Scenario A map: insert I and D, rebuild. -/
def scnA_map : LayerMap :=
  (LayerMap.default.insertList [scnA_I, scnA_D]).rebuild_index

/-- A wide delta layer: keys `[0, 10)`, lsns `[0, 100)`. -/
def cex_D : LayerDescriptor := ⟨⟨⟨0⟩, ⟨10⟩⟩, ⟨⟨0⟩, ⟨100⟩⟩, true, "cexD"⟩

/-- An image layer inside the delta's lsn span: keys `[0, 10)`, lsn
singleton `[50, 51)`. -/
def cex_I : LayerDescriptor := ⟨⟨⟨0⟩, ⟨10⟩⟩, ⟨⟨50⟩, ⟨51⟩⟩, false, "cexI"⟩

/-- Map holding the wide delta and the embedded image. -/
def cex_map : LayerMap :=
  (LayerMap.default.insertList [cex_D, cex_I]).rebuild_index

/-- A short delta layer inside the wide delta's lsn span: keys `[0, 10)`,
lsns `[50, 60)`. -/
def cex_D2 : LayerDescriptor := ⟨⟨⟨0⟩, ⟨10⟩⟩, ⟨⟨50⟩, ⟨60⟩⟩, true, "cexD2"⟩

/-- Map holding the wide delta and the short delta. -/
def cex2_map : LayerMap :=
  (LayerMap.default.insertList [cex_D, cex_D2]).rebuild_index

/-- A single image layer at lsn range `[5, 6)`, keys `[0, 10)`. -/
def one_L : LayerDescriptor := ⟨⟨⟨0⟩, ⟨10⟩⟩, ⟨⟨5⟩, ⟨6⟩⟩, false, "one"⟩

/-- An image layer at lsn range `[0, 1)`, keys `[0, 10)` (its
`LsnRange.start` is 0). -/
def zero_L : LayerDescriptor := ⟨⟨⟨0⟩, ⟨10⟩⟩, ⟨⟨0⟩, ⟨1⟩⟩, false, "zero"⟩

/-- Map holding only `zero_L`. -/
def zero_map : LayerMap :=
  (LayerMap.default.insertList [zero_L]).rebuild_index

/-! ### C1 -/

/-- C1: point-query correctness of `search` — for every key and lsn over
the indexed (compiled) layers, with the overlay empty: the query returns
`none` exactly when no indexed layer has the key in its KeyRange and
`LsnRange.start ≤ lsn`; a hit is such a candidate layer with the greatest
`LsnRange.start ≤ lsn`; and whenever some candidate exists — in
particular for a query lsn above every layer's LsnRange, as in
`bench_from_captest_env`'s rel-dir query — the result is a hit. -/
theorem C1_search_point_query (m : LayerMap)
    (hov : m.open_and_frozen = []) (k : Key) (l : Lsn) :
    (m.search k l = none ↔
      ∀ L ∈ m.compiled, candidateB L k l = false) ∧
    (∀ R res, m.search k l = some (R, res) →
      R ∈ m.compiled ∧ candidateB R k l = true ∧
      ∀ L ∈ m.compiled, candidateB L k l = true →
        L.lsn.start.toNat ≤ R.lsn.start.toNat) ∧
    ((∃ L ∈ m.compiled, candidateB L k l = true) →
      ∃ R res, m.search k l = some (R, res)) := by
  rw [search_of_no_overlay hov]
  refine ⟨searchLayers_eq_none_iff m.compiled k l, ?_, ?_⟩
  · intro R res h
    obtain ⟨h1, h2, -, -⟩ := searchLayers_some h
    exact ⟨h1, h2, searchLayers_greatest_start h⟩
  · rintro ⟨L, hL, hc⟩
    cases hs : searchLayers m.compiled k l with
    | none =>
      have := (searchLayers_eq_none_iff m.compiled k l).mp hs L hL
      rw [hc] at this
      exact absurd this (by simp)
    | some p => exact ⟨p.1, p.2, by rw [← hs]⟩

/-- Witness for C1 at the Scenario A map and the query `(K75, 150)`. -/
theorem C1_search_point_query_witness :
    (scnA_map.search ⟨75⟩ ⟨150⟩ = none ↔
      ∀ L ∈ scnA_map.compiled, candidateB L ⟨75⟩ ⟨150⟩ = false) ∧
    (∀ R res, scnA_map.search ⟨75⟩ ⟨150⟩ = some (R, res) →
      R ∈ scnA_map.compiled ∧ candidateB R ⟨75⟩ ⟨150⟩ = true ∧
      ∀ L ∈ scnA_map.compiled, candidateB L ⟨75⟩ ⟨150⟩ = true →
        L.lsn.start.toNat ≤ R.lsn.start.toNat) ∧
    ((∃ L ∈ scnA_map.compiled, candidateB L ⟨75⟩ ⟨150⟩ = true) →
      ∃ R res, scnA_map.search ⟨75⟩ ⟨150⟩ = some (R, res)) :=
  C1_search_point_query scnA_map (by rfl) ⟨75⟩ ⟨150⟩

/-! ### C2 -/

theorem benchSeq_singleton_images : ∀ L ∈ benchSequentialLayers,
    L.is_incremental = false ∧
    L.lsn.stop.toNat = L.lsn.start.toNat + 1 := by
  intro L hL
  simp only [benchSequentialLayers, List.mem_map, List.mem_range] at hL
  obtain ⟨i, -, rfl⟩ := hL
  exact ⟨rfl, rfl⟩

/-- C2 counterexample: in `cex2_map` the point `(key 5, lsn 70)` lies
inside the inserted delta `cex_D` (key and lsn both in its ranges), yet
`search` returns the fresher delta `cex_D2` (greatest
`LsnRange.start = 50 ≤ 70`), whose LsnRange `[50, 60)` does not contain
lsn 70 — refuting "returns Some layer whose KeyRange contains key and
whose LsnRange contains lsn". -/
theorem C2_containment_counterexample :
    cex_D ∈ cex2_map.compiled ∧
    cex_D.key.containsKey ⟨5⟩ = true ∧
    cex_D.lsn.containsLsn ⟨70⟩ = true ∧
    cex2_map.search ⟨5⟩ ⟨70⟩ = some (cex_D2, some ⟨50⟩) ∧
    cex_D2.lsn.containsLsn ⟨70⟩ = false := by decide

/-- C2 (amended): for every rebuilt layer map, inserted layer L and
`(key, lsn)` inside L's ranges, `search(key, lsn)` returns some layer
whose KeyRange contains the key and whose LsnRange covers or precedes the
lsn (`LsnRange.start ≤ lsn`; its LsnRange need not contain the lsn, as a
fresher image layer may win); and in the synthetic diagonal configuration
of `bench_sequential`, every point query falling inside exactly one layer
finds that layer. -/
theorem C2_containment_amended :
    (∀ (m : LayerMap), m.open_and_frozen = [] →
      ∀ L ∈ m.compiled, ∀ (k : Key) (l : Lsn),
        L.key.containsKey k = true → L.lsn.containsLsn l = true →
        ∃ R res, m.search k l = some (R, res) ∧
          R.key.containsKey k = true ∧ R.lsn.start.toNat ≤ l.toNat) ∧
    (∀ (k : Key) (l : Lsn) (L0 : LayerDescriptor),
      L0 ∈ benchSequentialLayers →
      L0.key.containsKey k = true → L0.lsn.containsLsn l = true →
      (∀ L ∈ benchSequentialLayers, L.key.containsKey k = true →
        L.lsn.containsLsn l = true → L = L0) →
      ∃ res, benchSequentialMap.search k l = some (L0, res)) := by
  constructor
  · intro m hov L hL k l hk hl
    have hc : candidateB L k l = true := candidateB_of_contains hk hl
    rw [search_of_no_overlay hov]
    cases hs : searchLayers m.compiled k l with
    | none =>
      have := (searchLayers_eq_none_iff _ k l).mp hs L hL
      rw [hc] at this
      exact absurd this (by simp)
    | some p =>
      obtain ⟨R, res⟩ := p
      obtain ⟨hRm, hRc, -, -⟩ := searchLayers_some hs
      unfold candidateB at hRc
      simp only [Bool.and_eq_true, decide_eq_true_eq] at hRc
      exact ⟨R, res, rfl, hRc.1, hRc.2⟩
  · intro k l L0 h0 hk hl huniq
    obtain ⟨hcomp, hov, -⟩ := buildFromList_fields benchSequentialLayers
    have hov2 : benchSequentialMap.open_and_frozen = [] := hov
    rw [search_of_no_overlay hov2,
      show benchSequentialMap.compiled = benchSequentialLayers from hcomp]
    exact searchLayers_unique_singleton_image benchSeq_singleton_images
      h0 hk hl huniq

/-- Witness for C2 (amended): the general part at `cex_map` with the
point `(5, 70)` inside `cex_D`, and the diagonal part at the query
`(key 10, lsn 1)`, which falls inside exactly layer 1. -/
theorem C2_containment_amended_witness :
    (∃ R res, cex_map.search ⟨5⟩ ⟨70⟩ = some (R, res) ∧
      R.key.containsKey ⟨5⟩ = true ∧ R.lsn.start.toNat ≤ (70 : Nat)) ∧
    (∃ res, benchSequentialMap.search ⟨10⟩ ⟨1⟩ =
      some (benchSequentialLayer 1, res)) := by
  constructor
  · exact C2_containment_amended.1 cex_map rfl cex_D (by decide) ⟨5⟩ ⟨70⟩
      (by decide) (by decide)
  · refine C2_containment_amended.2 ⟨10⟩ ⟨1⟩ (benchSequentialLayer 1)
      (List.mem_map.mpr ⟨1, List.mem_range.mpr (by omega), rfl⟩)
      (by decide) (by decide) ?_
    intro L hL hk2 hl2
    simp only [benchSequentialLayers, List.mem_map, List.mem_range] at hL
    obtain ⟨i, -, rfl⟩ := hL
    simp only [benchSequentialLayer, KeyRange.containsKey, Key.add,
      zeroKey, LsnRange.containsLsn, Bool.and_eq_true,
      decide_eq_true_eq] at hk2 hl2
    have : i = 1 := by omega
    rw [this]

/-! ### C3 -/

/-- C3 counterexample: in the Scenario A map, `search(K75, 150)` returns
the image I with no resume Lsn — not the delta D with resume-Lsn 100 as
the claim states — because I and D tie on `LsnRange.start = 100` and the
section 4.3 tie-break prefers the image. -/
theorem C3_resume_lsn_counterexample :
    scnA_map.search ⟨75⟩ ⟨150⟩ = some (scnA_I, none) ∧
    ¬ scnA_map.search ⟨75⟩ ⟨150⟩ = some (scnA_D, some ⟨100⟩) := by decide

/-- C3 (amended): on a hit, `search(key, lsn)` returns the resume Lsn
`Some LsnRange.start` exactly when the returned layer is a delta, and
`None` as second component exactly when it is an image; in Scenario A,
`search(K75, 150)` returns I with no resume (the image wins the
equal-start tie-break), `search(K75, 100)` returns I with no resume, and
`search(K200, 150)` returns `None`. -/
theorem C3_resume_lsn_amended :
    (∀ (m : LayerMap) (k : Key) (l : Lsn) R res,
      m.search k l = some (R, res) →
      ((res = some R.lsn.start ↔ R.is_incremental = true) ∧
       (res = none ↔ R.is_incremental = false))) ∧
    scnA_map.search ⟨75⟩ ⟨150⟩ = some (scnA_I, none) ∧
    scnA_map.search ⟨75⟩ ⟨100⟩ = some (scnA_I, none) ∧
    scnA_map.search ⟨200⟩ ⟨150⟩ = none := by
  refine ⟨?_, by decide, by decide, by decide⟩
  intro m k l R res h
  have hres := search_hit_resume h
  subst hres
  unfold resumeOf
  cases hinc : R.is_incremental <;> simp

/-- Witness for C3 (amended): the resume contract at the Scenario A hit
`search(K75, 150) = some (I, none)`. -/
theorem C3_resume_lsn_amended_witness :
    ((none : Option Lsn) = some scnA_I.lsn.start ↔
      scnA_I.is_incremental = true) ∧
    ((none : Option Lsn) = none ↔ scnA_I.is_incremental = false) :=
  C3_resume_lsn_amended.1 scnA_map ⟨75⟩ ⟨150⟩ scnA_I none (by decide)

/-! ### C4 -/

/-- C4: tie-break — whenever an image layer and a delta layer are both
candidates for `(key, lsn)` (cover the key, start at or before the lsn)
with equal `LsnRange.start` that is the greatest candidate start, `search`
returns an image layer with that start — not the delta. -/
theorem C4_tie_break {m : LayerMap} (hov : m.open_and_frozen = [])
    {I D : LayerDescriptor} {k : Key} {l : Lsn}
    (hI : I ∈ m.compiled) (hD : D ∈ m.compiled)
    (hIimg : I.is_incremental = false)
    (hDdelta : D.is_incremental = true)
    (hIc : candidateB I k l = true) (hDc : candidateB D k l = true)
    (heq : I.lsn.start.toNat = D.lsn.start.toNat)
    (hmax : ∀ L ∈ m.compiled, candidateB L k l = true →
      L.lsn.start.toNat ≤ I.lsn.start.toNat) :
    ∃ R res, m.search k l = some (R, res) ∧ R.is_incremental = false ∧
      R.lsn.start.toNat = I.lsn.start.toNat ∧ R ≠ D := by
  rw [search_of_no_overlay hov]
  cases hs : searchLayers m.compiled k l with
  | none =>
    have := (searchLayers_eq_none_iff _ k l).mp hs I hI
    rw [hIc] at this
    exact absurd this (by simp)
  | some p =>
    obtain ⟨R, res⟩ := p
    obtain ⟨hRm, hRc, -, hRmax⟩ := searchLayers_some hs
    have h1 : R.lsn.start.toNat ≤ I.lsn.start.toNat := hmax R hRm hRc
    have h2 : I.lsn.start.toNat ≤ R.lsn.start.toNat := by
      by_contra hlt
      have := hRmax I hI hIc
      rw [ldLt_of_start_lt (by omega)] at this
      exact absurd this (by simp)
    have hstart : R.lsn.start.toNat = I.lsn.start.toNat :=
      le_antisymm h1 h2
    have hRimg : R.is_incremental = false := by
      cases hinc : R.is_incremental
      · rfl
      · have hlt : ldLt R I = true :=
          ldLt_of_start_eq_rank_lt (by omega)
            (by simp [imageRank, hinc, hIimg])
        have h3 := hRmax I hI hIc
        rw [hlt] at h3
        exact absurd h3 (by simp)
    refine ⟨R, res, rfl, hRimg, hstart, ?_⟩
    intro hRD
    rw [hRD, hDdelta] at hRimg
    exact absurd hRimg (by simp)

/-- Witness for C4 at the Scenario A map, where image I and delta D both
cover key 75 and tie on `LsnRange.start = 100`, the greatest start at or
before lsn 150. -/
theorem C4_tie_break_witness :
    ∃ R res, scnA_map.search ⟨75⟩ ⟨150⟩ = some (R, res) ∧
      R.is_incremental = false ∧
      R.lsn.start.toNat = scnA_I.lsn.start.toNat ∧ R ≠ scnA_D :=
  C4_tie_break (m := scnA_map) rfl (I := scnA_I) (D := scnA_D)
    (k := ⟨75⟩) (l := ⟨150⟩) (by decide) (by decide) rfl rfl
    (by decide) (by decide) rfl (by decide)

/-! ### C5 -/

/-- C5: order independence — inserting any two permutations of a set of
layers into an empty map, each followed by one `rebuild_index()`, yields
maps on which `search` agrees at every `(key, lsn)`. -/
theorem C5_order_independence {l1 l2 : List LayerDescriptor}
    (hperm : l1.Perm l2) (k : Key) (l : Lsn) :
    ((LayerMap.default.insertList l1).rebuild_index).search k l =
    ((LayerMap.default.insertList l2).rebuild_index).search k l := by
  obtain ⟨hc1, ho1, -⟩ := buildFromList_fields l1
  obtain ⟨hc2, ho2, -⟩ := buildFromList_fields l2
  rw [search_of_no_overlay ho1, search_of_no_overlay ho2, hc1, hc2]
  unfold searchLayers
  rw [selectBest_perm (hperm.filter (fun L => candidateB L k l))]

/-- Witness for C5: the two insertion orders of Scenario A's layers give
the same answer at `(K75, 150)`. -/
theorem C5_order_independence_witness :
    ((LayerMap.default.insertList [scnA_I, scnA_D]).rebuild_index).search
      ⟨75⟩ ⟨150⟩ =
    ((LayerMap.default.insertList [scnA_D, scnA_I]).rebuild_index).search
      ⟨75⟩ ⟨150⟩ :=
  C5_order_independence (by decide) ⟨75⟩ ⟨150⟩

/-! ### C6 -/

/-- C6: deferred visibility — `insert_historic` changes no `search`
result until the next `rebuild_index()` (the section 4.5 contract, under
which `search` reads only the overlay and the compiled snapshot); and the
section 4.3 pre-rebuild behaviour of additionally scanning the pending
batch disagrees with it at a concrete input, so only one of the two
spec-stated behaviours can hold. -/
theorem C6_deferred_visibility :
    (∀ (m : LayerMap) (L : LayerDescriptor) (k : Key) (l : Lsn),
      (m.insert_historic L).search k l = m.search k l) ∧
    (LayerMap.default.insert_historic one_L).searchWithPending ⟨0⟩ ⟨5⟩ ≠
      (LayerMap.default.insert_historic one_L).search ⟨0⟩ ⟨5⟩ :=
  ⟨fun _ _ _ _ => rfl, by decide⟩

/-! ### C7 -/

/-- Two key ranges overlap (share at least one key). -/
def keyRangesOverlap (a b : KeyRange) : Bool :=
  decide (a.start.toNat < b.stop.toNat) &&
    decide (b.start.toNat < a.stop.toNat)

theorem imageCandStarts_stable {layers : List LayerDescriptor} {k : Key}
    {l1 l2 : Lsn} (hle : l1.toNat ≤ l2.toNat)
    (himg : ∀ L ∈ layers, L.is_incremental = false →
      L.key.containsKey k = true →
      L.lsn.start.toNat ≤ l1.toNat ∨ l2.toNat < L.lsn.start.toNat) :
    imageCandStarts layers k l1 = imageCandStarts layers k l2 := by
  unfold imageCandStarts
  congr 1
  apply List.filter_congr
  intro L hL
  unfold candidateB
  cases hinc : L.is_incremental
  · cases hk : L.key.containsKey k
    · simp [hk]
    · rcases himg L hL hinc hk with h | h
      · simp only [hinc, hk, Bool.not_false, Bool.true_and]
        rw [decide_eq_true h, decide_eq_true (Nat.le_trans h hle)]
      · simp only [hinc, hk, Bool.not_false, Bool.true_and]
        rw [decide_eq_false (by omega), decide_eq_false (by omega)]
  · simp [hinc]

theorem keyDifficulty_mono {layers : List LayerDescriptor} {k : Key}
    {l1 l2 : Lsn} (hle : l1.toNat ≤ l2.toNat)
    (hstable : imageCandStarts layers k l1 = imageCandStarts layers k l2) :
    keyDifficulty layers k l1 ≤ keyDifficulty layers k l2 := by
  unfold keyDifficulty latestImageStart
  rw [hstable]
  cases (imageCandStarts layers k l2).max? with
  | none =>
    apply List.countP_mono_left
    intro L _ h
    simp only [candidateB, KeyRange.containsKey, Bool.and_eq_true,
      decide_eq_true_eq] at h ⊢
    exact ⟨h.1, ⟨h.2.1, Nat.le_trans h.2.2 hle⟩⟩
  | some s =>
    apply List.countP_mono_left
    intro L _ h
    simp only [candidateB, KeyRange.containsKey, Bool.and_eq_true,
      decide_eq_true_eq] at h ⊢
    exact ⟨⟨h.1.1, h.1.2.1, Nat.le_trans h.1.2.2 hle⟩, h.2⟩

theorem foldr_max_mono {f g : Key → Nat} : ∀ (ks : List Key),
    (∀ k ∈ ks, f k ≤ g k) →
    (ks.map f).foldr max 0 ≤ (ks.map g).foldr max 0
  | [] => by simp
  | k :: t => by
    intro h
    simp only [List.map_cons, List.foldr_cons]
    exact max_le_max (h k (List.mem_cons_self k t))
      (foldr_max_mono t (fun x hx => h x (List.mem_cons_of_mem k hx)))

theorem partitionDifficulty_mono {layers : List LayerDescriptor}
    {P : KeyRange} {l1 l2 : Lsn} (hle : l1.toNat ≤ l2.toNat)
    (hP : P.start.toNat < P.stop.toNat)
    (himg : ∀ L ∈ layers, L.is_incremental = false →
      keyRangesOverlap L.key P = true →
      L.lsn.start.toNat ≤ l1.toNat ∨ l2.toNat < L.lsn.start.toNat) :
    partitionDifficulty layers P l1 ≤ partitionDifficulty layers P l2 := by
  unfold partitionDifficulty
  apply foldr_max_mono
  intro k hk
  have hkin : P.start.toNat ≤ k.toNat ∧ k.toNat < P.stop.toNat := by
    unfold partitionSampleKeys at hk
    rcases List.mem_cons.mp hk with rfl | hk2
    · exact ⟨Nat.le_refl _, hP⟩
    · obtain ⟨L, -, hLk⟩ := List.mem_filterMap.mp hk2
      split at hLk
      · injection hLk with hLk
        subst hLk
        rename_i hcond
        simp only [Bool.and_eq_true, decide_eq_true_eq] at hcond
        omega
      · exact absurd hLk (by simp)
  apply keyDifficulty_mono hle
  apply imageCandStarts_stable hle
  intro L hL hinc hkcov
  apply himg L hL hinc
  simp only [KeyRange.containsKey, Bool.and_eq_true,
    decide_eq_true_eq] at hkcov
  simp only [keyRangesOverlap, Bool.and_eq_true, decide_eq_true_eq]
  omega

/-- C7: difficulty monotonicity — for a fixed partitioning and a
partition with no image layer overlapping it whose `LsnRange.start` lies
in `(lsn1, lsn2]`, the score `get_difficulty_map` returns for that
partition at `lsn2` is at least the score at `lsn1`.  (The reference
cost-model computation is an unfinished placeholder and the benchmark's
difficulty inputs are `todo!()` stubs, so the score is the section 9
spec-modelled delta-traversal count.) -/
theorem C7_difficulty_monotonicity (m : LayerMap)
    (part : KeyPartitioning) (i : Nat) (hi : i < part.length)
    (l1 l2 : Lsn) (hle : l1.toNat ≤ l2.toNat)
    (hP : (part.get ⟨i, hi⟩).start.toNat <
      (part.get ⟨i, hi⟩).stop.toNat)
    (himg : ∀ L ∈ m.compiled, L.is_incremental = false →
      keyRangesOverlap L.key (part.get ⟨i, hi⟩) = true →
      L.lsn.start.toNat ≤ l1.toNat ∨ l2.toNat < L.lsn.start.toNat) :
    (m.get_difficulty_map l1 part).getD i 0 ≤
      (m.get_difficulty_map l2 part).getD i 0 := by
  unfold LayerMap.get_difficulty_map
  rw [List.getD_eq_getElem _ _ (by simpa using hi),
    List.getD_eq_getElem _ _ (by simpa using hi),
    List.getElem_map, List.getElem_map]
  simp only [List.get_eq_getElem] at hP himg
  exact partitionDifficulty_mono hle hP himg

/-- Witness for C7 at `cex_map` (one delta, one image at lsn start 50),
the single partition `[0, 10)` and the times 1 ≤ 2 (no image start lies
in `(1, 2]`). -/
theorem C7_difficulty_monotonicity_witness :
    (cex_map.get_difficulty_map ⟨1⟩ [⟨⟨0⟩, ⟨10⟩⟩]).getD 0 0 ≤
      (cex_map.get_difficulty_map ⟨2⟩ [⟨⟨0⟩, ⟨10⟩⟩]).getD 0 0 :=
  C7_difficulty_monotonicity cex_map [⟨⟨0⟩, ⟨10⟩⟩] 0 (by decide)
    ⟨1⟩ ⟨2⟩ (by decide) (by decide) (by decide)

/-! ### C8 -/

/-- The filename-dump input used by the C8 witness: one parsed image
line and one parsed delta line. -/
def c8_input : List ParsedFileName :=
  [.image ⟨⟨⟨0⟩, ⟨10⟩⟩, ⟨7⟩⟩ "imgfile",
   .delta ⟨⟨⟨20⟩, ⟨30⟩⟩, ⟨⟨3⟩, ⟨9⟩⟩⟩ "deltafile"]

/-- C8: image-layer singleton invariant — every non-incremental layer in
a map built by `build_layer_map` has LsnRange equal to the singleton
`[lsn, lsn+1)`; in particular, the LayerDescriptor constructed from a
parsed image filename has `is_incremental = false` and lsn range
`imgfilename.lsn .. imgfilename.lsn + 1`. -/
theorem C8_image_singleton (input : List ParsedFileName) :
    (∀ L ∈ (build_layer_map input).compiled, L.is_incremental = false →
      L.lsn.stop.toNat = L.lsn.start.toNat + 1) ∧
    (∀ (f : ImageFileName) (fname : String),
      layerOfParsed (.image f fname) =
        ⟨f.key_range, ⟨f.lsn, ⟨f.lsn.toNat + 1⟩⟩, false, fname⟩) := by
  constructor
  · intro L hL hinc
    have hcomp := (buildFromList_fields (input.map layerOfParsed)).1
    rw [show (build_layer_map input).compiled = input.map layerOfParsed
      from hcomp] at hL
    obtain ⟨p, -, rfl⟩ := List.mem_map.mp hL
    cases p with
    | image f fname => rfl
    | delta f fname => exact absurd hinc (by simp [layerOfParsed])
  · intro f fname
    rfl

/-- Witness for C8 at the two-line input `c8_input`: the image layer in
the built map has the singleton lsn range `[7, 8)`. -/
theorem C8_image_singleton_witness :
    ((layerOfParsed (.image ⟨⟨⟨0⟩, ⟨10⟩⟩, ⟨7⟩⟩ "imgfile")).lsn.stop.toNat
      = (layerOfParsed
          (.image ⟨⟨⟨0⟩, ⟨10⟩⟩, ⟨7⟩⟩ "imgfile")).lsn.start.toNat + 1) ∧
    layerOfParsed (.image ⟨⟨⟨0⟩, ⟨10⟩⟩, ⟨7⟩⟩ "imgfile") =
      ⟨⟨⟨0⟩, ⟨10⟩⟩, ⟨⟨7⟩, ⟨8⟩⟩, false, "imgfile"⟩ := by
  constructor
  · exact (C8_image_singleton c8_input).1 _ (by decide) rfl
  · exact (C8_image_singleton c8_input).2 ⟨⟨⟨0⟩, ⟨10⟩⟩, ⟨7⟩⟩ "imgfile"

/-! ### C9 -/

theorem uqpFold_pos : ∀ (ls : List LayerDescriptor),
    (∀ L ∈ ls, L.is_incremental = false → 1 ≤ L.lsn.start.toNat) →
    ls.foldr uqpStep (some []) =
      some (ls.filterMap (fun L => if L.is_incremental then none
        else some (L.key.start.next, ⟨L.lsn.start.toNat - 1⟩)))
  | [] => by intro _; rfl
  | L :: t => by
    intro h
    have ih := uqpFold_pos t (fun x hx => h x (List.mem_cons_of_mem L hx))
    simp only [List.foldr_cons, ih, List.filterMap_cons]
    cases hinc : L.is_incremental
    · have h1 := h L (List.mem_cons_self L t) hinc
      have hsub : u64CheckedSub L.get_lsn_range.start.toNat 1 =
          some (L.lsn.start.toNat - 1) := by
        unfold u64CheckedSub LayerDescriptor.get_lsn_range
        rw [if_pos h1]
      simp [uqpStep, hinc, hsub, LayerDescriptor.get_key_range]
    · simp [uqpStep, hinc]

theorem uqpFold_none : ∀ (ls : List LayerDescriptor),
    (∃ L ∈ ls, L.is_incremental = false ∧ L.lsn.start.toNat = 0) →
    ls.foldr uqpStep (some []) = none
  | [] => by
    rintro ⟨L, hL, -⟩
    exact absurd hL (List.not_mem_nil L)
  | L :: t => by
    rintro ⟨M, hM, hMinc, hM0⟩
    rcases List.mem_cons.mp hM with rfl | hMt
    · simp only [List.foldr_cons]
      cases hrest : t.foldr uqpStep (some []) with
      | none => rfl
      | some rest =>
        simp [uqpStep, hMinc, u64CheckedSub,
          LayerDescriptor.get_lsn_range, hM0]
    · have ih := uqpFold_none t ⟨M, hMt, hMinc, hM0⟩
      simp only [List.foldr_cons, ih]
      rfl

/-- C9: for a layer map whose non-incremental layers all have
`LsnRange.start ≥ 1`, `uniform_query_pattern` returns exactly one query
per non-incremental layer, with key `KeyRange.start.next()` and lsn
`LsnRange.start - 1`; and because the subtraction `Lsn(lr.start.0 - 1)`
is unguarded, a non-incremental layer at Lsn 0 underflows it (result
`none`), so the precondition is required. -/
theorem C9_uniform_query_pattern (m : LayerMap) :
    ((∀ L ∈ m.iter_historic_layers, L.is_incremental = false →
        1 ≤ L.lsn.start.toNat) →
      uniform_query_pattern m = some (m.iter_historic_layers.filterMap
        (fun L => if L.is_incremental then none
          else some (L.key.start.next, ⟨L.lsn.start.toNat - 1⟩)))) ∧
    ((∃ L ∈ m.iter_historic_layers, L.is_incremental = false ∧
        L.lsn.start.toNat = 0) →
      uniform_query_pattern m = none) :=
  ⟨fun h => uqpFold_pos m.iter_historic_layers h,
   fun h => uqpFold_none m.iter_historic_layers h⟩

/-- Witness for C9: on the Scenario A map (image at start 100, delta) the
pattern is the single query `(key 1, lsn 99)`; on the map holding an
image layer at Lsn 0 the subtraction underflows and the result is
`none`. -/
theorem C9_uniform_query_pattern_witness :
    uniform_query_pattern scnA_map = some [(⟨1⟩, ⟨99⟩)] ∧
    uniform_query_pattern zero_map = none := by
  constructor
  · exact ((C9_uniform_query_pattern scnA_map).1 (by decide)).trans
      (by decide)
  · exact (C9_uniform_query_pattern zero_map).2 ⟨zero_L, by decide,
      rfl, rfl⟩

/-! ### C10 -/

/-- C10: the gluegun WAL-repair utility never writes to the target data
directory, for any input and regardless of the dryrun flag —
`copy_directory` only logs and returns `Ok` (its body is a TODO), and the
backfill branch only logs "ACTION: Copying bytes" without performing any
file write. -/
theorem C10_gluegun_never_writes :
    (∀ (tli : TimelineDirInfo) (dir : String),
      (copy_directory tli dir).1.filter FsAction.isWrite = [] ∧
      (copy_directory tli dir).2 = true) ∧
    (∀ env : GluegunTimelineEnv,
      (processTimeline env).filter FsAction.isWrite = []) := by
  constructor
  · intro tli dir
    exact ⟨rfl, rfl⟩
  · intro env
    unfold processTimeline copy_directory
    repeat' split
    all_goals simp [FsAction.isWrite]

end Neon
